import Mathlib

/-!
Shallow embedding of `errutil` (src/lib.rs): a small error-composition
toolkit.  Failure values are wrapped in `Context` layers (message + cause)
and at most one `WithBacktrace` layer is supposed to materialize a stack
snapshot per causal chain.  We model the dynamic world of
`dyn StdError + Send + Sync` values reachable through this crate as an
inductive type with three shapes: a plain leaf error (concrete kind tag +
message, no cause), a `Context` node, and a `WithBacktrace` node.  Stack
snapshots are modelled as `Nat` identifiers so captures can be counted.
-/

namespace Errutil

/-- Dynamic failure values: a plain concrete error (`leaf kind msg`, no
cause), `Context { msg, error }` (src/lib.rs lines 9-13), and
`WithBacktrace { err, backtrace }` (src/lib.rs lines 77-81).  The `kind`
tag on a leaf stands for the concrete Rust type of the original error, and
the `Option Nat` on `wb` is the optional captured snapshot. -/
inductive Err : Type where
  | leaf (kind : Nat) (msg : String)
  | context (msg : String) (error : Err)
  | wb (err : Err) (backtrace : Option Nat)
deriving DecidableEq

/-- Display: `Context` renders only its message (src/lib.rs lines 24-28);
`WithBacktrace` forwards to the held error (lines 110-114); a leaf renders
its own message. -/
def display : Err → String
  | .leaf _ m => m
  | .context m _ => m
  | .wb e _ => display e

/-- Cause lookup (`StdError::source`): a leaf has none; `Context` returns
its held error (src/lib.rs lines 30-34); `WithBacktrace` forwards to the
held error's own source (lines 125-127), so the held error itself is not
returned. -/
def source : Err → Option Err
  | .leaf _ _ => none
  | .context _ e => some e
  | .wb e _ => source e

/-- Whether the dynamic value is exactly a `WithBacktrace` node: the
capability-checked `downcast_ref::<WithBacktrace>` test used by `find_bt`
(src/lib.rs line 91). -/
def isWB : Err → Bool
  | .wb _ _ => true
  | _ => false

/-- Structural size, used as the termination measure for cause-chain
walks. -/
def size : Err → Nat
  | .leaf _ _ => 1
  | .context _ e => size e + 1
  | .wb e _ => size e + 1

theorem source_size_lt : ∀ {e s : Err}, source e = some s → size s < size e := by
  intro e
  induction e with
  | leaf k m => intro s h; simp [source] at h
  | context m e ih =>
    intro s h
    simp only [source, Option.some.injEq] at h
    subst h
    simp [size]
  | wb e b ih =>
    intro s h
    simp only [source] at h
    have := ih h
    simp [size]
    omega

/-- The cause-chain walk `WithBacktrace::find_bt` (src/lib.rs lines
89-97): starting from `e`, repeatedly take `source` and return the first
node that downcasts to `WithBacktrace`.  The node `e` itself is never
examined, only its strict sources.  Structural form; the lemma
`find_bt_loop` below proves it equal to the source's loop
`while let Some(source) = e.source() { .. }`. -/
def find_bt : Err → Option Err
  | .leaf _ _ => none
  | .context _ e => if isWB e then some e else find_bt e
  | .wb e _ => find_bt e

/-- Certifies that `find_bt` is the source's loop: check the current
node's source, return it if it is a `WithBacktrace`, else continue from
it. -/
theorem find_bt_loop (e : Err) :
    find_bt e = match source e with
      | none => none
      | some s => if isWB s then some s else find_bt s := by
  induction e with
  | leaf k m => simp [find_bt, source]
  | context m e ih => simp [find_bt, source]
  | wb e b ih => simpa [find_bt, source] using ih

theorem find_bt_size_lt : ∀ {e r : Err}, find_bt e = some r → size r < size e := by
  intro e
  induction e with
  | leaf k m => intro r h; simp [find_bt] at h
  | context m e ih =>
    intro r h
    simp only [find_bt] at h
    by_cases hw : isWB e
    · simp only [hw, if_true, Option.some.injEq] at h
      subst h
      simp [size]
    · rw [if_neg hw] at h
      have := ih h
      simp [size]
      omega
  | wb e b ih =>
    intro r h
    simp only [find_bt] at h
    have := ih h
    simp [size]
    omega

/-- Snapshot retrieval `WithBacktrace::backtrace` (src/lib.rs lines
84-88): the node's own snapshot if present, else
`find_bt(&*self.err).and_then(WithBacktrace::backtrace)` — walk the held
error's cause chain for a nested `WithBacktrace` and ask that node.  On
non-`wb` values (where the Rust method does not exist) we return
`none`. -/
def backtrace : Err → Option Nat
  | .wb err b =>
    match b with
    | some s => some s
    | none =>
      match h : find_bt err with
      | some r => backtrace r
      | none => none
  | .leaf _ _ => none
  | .context _ _ => none
termination_by e => size e
decreasing_by
  have h1 := find_bt_size_lt h
  simp [size]
  omega

/-- The `From<Error> for WithBacktrace` conversion (src/lib.rs lines
130-143): wrap `err`, storing a fresh snapshot only when
`find_bt(&*err)` finds no `WithBacktrace` in `err`'s strict cause chain.
The fresh snapshot `Backtrace::new()` is modelled by the identifier
`snap` supplied by the caller. -/
def withBacktraceFrom (snap : Nat) (err : Err) : Err :=
  .wb err (if (find_bt err).isSome then none else some snap)

/-- The `WithBacktrace` node's own stored snapshot (the private
`backtrace` field). -/
def ownBt : Err → Option Nat
  | .wb _ b => b
  | _ => none

/-- Number of materialized snapshots stored anywhere in a value. -/
def snapCount : Err → Nat
  | .leaf _ _ => 0
  | .context _ e => snapCount e
  | .wb e b => snapCount e + (if b.isSome then 1 else 0)

/-- Downcast of an erased `dyn StdError` value to the concrete kind `k`
(`Box::downcast_ref::<K>`): succeeds only when the dynamic value is
exactly the leaf of kind `k`, yielding its data. -/
def dyn_downcast_ref (k : Nat) : Err → Option String
  | .leaf kk m => if kk = k then some m else none
  | _ => none

/-- Method `WithBacktrace::downcast_ref::<K>` (src/lib.rs lines 102-104):
delegates directly to the held `err`. -/
def downcast_ref (k : Nat) : Err → Option String
  | .wb err _ => dyn_downcast_ref k err
  | _ => none

/-- The list of nodes visited by repeated cause lookup below `e` (strict
sources, top-down). -/
def sourceChain : Err → List Err
  | .leaf _ _ => []
  | .context _ e => e :: sourceChain e
  | .wb e _ => sourceChain e

/-- Certifies that `sourceChain` is the iterated `source` walk. -/
theorem sourceChain_eq (e : Err) :
    sourceChain e = match source e with
      | none => []
      | some s => s :: sourceChain s := by
  induction e with
  | leaf k m => simp [sourceChain, source]
  | context m e ih => simp [sourceChain, source]
  | wb e b ih => simpa [sourceChain, source] using ih

/-- Length of the causal chain as seen by repeated cause lookup starting
at `e`: the node itself plus all its iterated sources. -/
def chainLen (e : Err) : Nat :=
  (sourceChain e).length + 1

/-- Follow exactly `n` cause edges from `e`. -/
def walkTo : Nat → Err → Option Err
  | 0, e => some e
  | n + 1, e => (source e).bind (walkTo n)

/-- Nest `n` `Context` layers with message `m` around `e`. -/
def nestContext : Nat → String → Err → Err
  | 0, _, e => e
  | n + 1, m, e => .context m (nestContext n m e)

/-- Fueled transcription of the `find_bt` loop, one unit of fuel per
iteration; `none` means the fuel ran out before the loop finished. -/
def find_btFuel : Nat → Err → Option (Option Err)
  | 0, _ => none
  | n + 1, e =>
    match source e with
    | none => some none
    | some s => if isWB s then some (some s) else find_btFuel n s

/-- Fueled transcription of `backtrace`'s recursion (together with its
inner `find_bt` loop); `none` means the fuel ran out. -/
def backtraceFuel : Nat → Err → Option (Option Nat)
  | 0, _ => none
  | n + 1, e =>
    match e with
    | .wb err b =>
      match b with
      | some s => some (some s)
      | none =>
        match find_btFuel n err with
        | none => none
        | some none => some none
        | some (some r) => backtraceFuel n r
    | _ => some none

namespace ResultExt

/-- Method `ResultExt::with_context` (src/lib.rs lines 67-71):
`self.map_err(|e| e.context(f()))`; the message closure is modelled as a
function out of `Unit`. -/
def with_context {α : Type} (r : Except Err α) (f : Unit → String) : Except Err α :=
  match r with
  | .ok v => .ok v
  | .error e => .error (.context (f ()) e)

/-- Method `ResultExt::context` (src/lib.rs lines 64-66):
`self.with_context(|| msg)`. -/
def context {α : Type} (r : Except Err α) (m : String) : Except Err α :=
  with_context r (fun _ => m)

/-- Method `ResultExt::with_backtrace` (src/lib.rs lines 72-74):
`self.map_err(ErrorExt::with_backtrace)`, with the would-be fresh
snapshot id passed explicitly. -/
def with_backtrace {α : Type} (snap : Nat) (r : Except Err α) : Except Err α :=
  match r with
  | .ok v => .ok v
  | .error e => .error (withBacktraceFrom snap e)

end ResultExt

theorem size_pos (e : Err) : 0 < size e := by
  cases e <;> simp [size]

theorem backtrace_some (err : Err) (s : Nat) :
    backtrace (Err.wb err (some s)) = some s := by
  simp [backtrace]

theorem backtrace_none_delegates (err : Err) :
    backtrace (Err.wb err none) = (find_bt err).bind backtrace := by
  rw [backtrace]
  cases h : find_bt err <;> simp

theorem find_bt_find (e : Err) :
    find_bt e = (sourceChain e).find? isWB := by
  induction e with
  | leaf k m => simp [find_bt, sourceChain]
  | context m e ih =>
    simp only [find_bt, sourceChain, List.find?_cons]
    cases hw : isWB e <;> simp [hw, ih]
  | wb e b ih => simpa [find_bt, sourceChain] using ih

theorem sourceChain_size_lt : ∀ {e x : Err}, x ∈ sourceChain e → size x < size e := by
  intro e
  induction e with
  | leaf k m => intro x h; simp [sourceChain] at h
  | context m e ih =>
    intro x h
    simp only [sourceChain, List.mem_cons] at h
    rcases h with rfl | h
    · simp [size]
    · have := ih h
      simp [size]
      omega
  | wb e b ih =>
    intro x h
    simp only [sourceChain] at h
    have := ih h
    simp [size]
    omega

theorem find_btFuel_spec : ∀ (n : Nat) {e : Err}, size e ≤ n →
    find_btFuel n e = some (find_bt e) := by
  intro n
  induction n with
  | zero =>
    intro e h
    have := size_pos e
    omega
  | succ n ih =>
    intro e h
    have hb := find_bt_loop e
    cases hs : source e with
    | none =>
      rw [hs] at hb
      simp [find_btFuel, hs, hb]
    | some s =>
      rw [hs] at hb
      have hlt : size s < size e := source_size_lt hs
      by_cases hw : isWB s
      · simp [find_btFuel, hs, hw] at hb ⊢
        simp [hb]
      · have hn : size s ≤ n := by omega
        simp [find_btFuel, hs, hw] at hb ⊢
        simp [hb, ih hn]

theorem backtraceFuel_spec : ∀ (n : Nat) {e : Err}, size e ≤ n →
    backtraceFuel n e = some (backtrace e) := by
  intro n
  induction n with
  | zero =>
    intro e h
    have := size_pos e
    omega
  | succ n ih =>
    intro e h
    cases e with
    | leaf k m => simp [backtraceFuel, backtrace]
    | context m e2 => simp [backtraceFuel, backtrace]
    | wb err b =>
      cases b with
      | some s => simp [backtraceFuel, backtrace_some]
      | none =>
        have herr : size err ≤ n := by
          simp [size] at h
          omega
        rw [backtrace_none_delegates]
        simp only [backtraceFuel, find_btFuel_spec n herr]
        cases hf : find_bt err with
        | none => simp
        | some r =>
          have hlt : size r < size err := find_bt_size_lt hf
          simp [ih (by omega : size r ≤ n)]


/-- Claim C3: for every failure value e and message m, the display of
attach_context(e, m) (`Context::new(m, e)`) equals the display of m
alone, and its cause lookup returns Some of the held failure, whose
display equals e's display. -/
theorem context_contract (m : String) (e : Err) :
    display (Err.context m e) = m
    ∧ source (Err.context m e) = some e
    ∧ (source (Err.context m e)).map display = some (display e) :=
  ⟨rfl, rfl, rfl⟩

/-- Claim C5: nesting n Context wraps around one leaf error yields a
chain whose length by repeated cause lookup is n + 1, with exactly the
leaf reachable at the bottom (n cause steps reach the leaf, n + 1 steps
fall off the chain). -/
theorem context_chain_length (n : Nat) (m : String) (k : Nat) (s : String) :
    chainLen (nestContext n m (Err.leaf k s)) = n + 1
    ∧ walkTo n (nestContext n m (Err.leaf k s)) = some (Err.leaf k s)
    ∧ walkTo (n + 1) (nestContext n m (Err.leaf k s)) = none := by
  induction n with
  | zero => exact ⟨rfl, rfl, rfl⟩
  | succ n ih =>
    obtain ⟨h1, h2, h3⟩ := ih
    refine ⟨?_, ?_, ?_⟩
    · simp only [nestContext, chainLen, sourceChain, List.length_cons] at h1 ⊢
      omega
    · simpa [nestContext, walkTo, source] using h2
    · simpa [nestContext, walkTo, source] using h3

/-- Claim C6: displaying a BacktraceCapture always shows exactly the held
error's display, so adding a backtrace layer never changes the
user-visible outermost message. -/
theorem wb_display_transparent (e : Err) (b : Option Nat) :
    display (Err.wb e b) = display e := rfl

/-- Claim C7: the Result operations context, with_context and
with_backtrace return any Ok value unchanged, the with_context message
closure is never evaluated on the success path (the result does not
depend on it), and on an Err value each wraps the error exactly as the
corresponding error-value operation would. -/
theorem result_ops_shortcircuit (α : Type) (v : α) (e : Err) (m : String)
    (f g : Unit → String) (snap : Nat) :
    ResultExt.with_context (Except.ok v : Except Err α) f = Except.ok v
    ∧ ResultExt.with_context (Except.ok v : Except Err α) f
        = ResultExt.with_context (Except.ok v) g
    ∧ ResultExt.context (Except.ok v : Except Err α) m = Except.ok v
    ∧ ResultExt.with_backtrace snap (Except.ok v : Except Err α) = Except.ok v
    ∧ ResultExt.with_context (Except.error e : Except Err α) f
        = Except.error (Err.context (f ()) e)
    ∧ ResultExt.context (Except.error e : Except Err α) m
        = Except.error (Err.context m e)
    ∧ ResultExt.with_backtrace snap (Except.error e : Except Err α)
        = Except.error (withBacktraceFrom snap e) :=
  ⟨rfl, rfl, rfl, rfl, rfl, rfl, rfl⟩

/-- Claim C9 (implicit): the BacktraceCapture wrapper forwards cause
lookup to the held error's own cause lookup, so its source equals the
held error's source, the held error never appears as a node of the chain
walked from outside, and wrapping does not increase the cause-chain
length. -/
theorem wb_chain_transparent (e : Err) (b : Option Nat) :
    source (Err.wb e b) = source e
    ∧ sourceChain (Err.wb e b) = sourceChain e
    ∧ e ∉ sourceChain (Err.wb e b)
    ∧ chainLen (Err.wb e b) = chainLen e := by
  refine ⟨rfl, rfl, ?_, rfl⟩
  intro hmem
  simp only [sourceChain] at hmem
  exact absurd (sourceChain_size_lt hmem) (lt_irrefl _)

/-- Claim C4: backtrace() returns the node's own snapshot when present;
otherwise it walks its own inner error's cause chain for the first
nested BacktraceCapture and returns the result of asking that node
(which may itself be none). -/
theorem backtrace_retrieval (err : Err) :
    (∀ s, backtrace (Err.wb err (some s)) = some s)
    ∧ backtrace (Err.wb err none)
        = ((sourceChain err).find? isWB).bind backtrace := by
  refine ⟨fun s => backtrace_some err s, ?_⟩
  rw [backtrace_none_delegates, find_bt_find]

/-- Claim C2, counterexample: a concrete error of kind 7 wrapped in one
Context layer and then in a BacktraceCapture is not recovered by
downcast_ref::<K> on the capture — the claim says Some, the code gives
none. -/
theorem downcast_through_context_fails :
    downcast_ref 7
      (withBacktraceFrom 1 (Err.context "saving file" (Err.leaf 7 "disk full")))
      = none := by decide

/-- Claim C2, amended: downcast_ref::<K> on a BacktraceCapture delegates
only to the directly held erased error, so it returns Some of the
original data exactly when the capture wraps the kind-K value itself
with no intervening Context or BacktraceCapture layer. -/
theorem downcast_ref_direct_only (k : Nat) (err : Err) (b : Option Nat) (m : String) :
    downcast_ref k (Err.wb err b) = some m ↔ err = Err.leaf k m := by
  cases err with
  | leaf kk mm =>
    simp only [downcast_ref, dyn_downcast_ref]
    by_cases hk : kk = k
    · subst hk
      simp [eq_comm]
    · simp [hk]
  | context mm e => simp [downcast_ref, dyn_downcast_ref]
  | wb e bb => simp [downcast_ref, dyn_downcast_ref]

/-- Claim C1, code behavior at the failing input: wrapping a plain leaf
error with with_backtrace() twice in a row stores a second fresh
snapshot in the outer node (its own snapshot is Some, two snapshots
total, and backtrace() returns the second one), because find_bt never
examines the head of the chain and WithBacktrace's source skips the held
error. -/
theorem double_with_backtrace_captures_twice :
    ownBt (withBacktraceFrom 2 (withBacktraceFrom 1 (Err.leaf 0 "disk full"))) = some 2
    ∧ snapCount (withBacktraceFrom 2 (withBacktraceFrom 1 (Err.leaf 0 "disk full"))) = 2
    ∧ backtrace (withBacktraceFrom 2 (withBacktraceFrom 1 (Err.leaf 0 "disk full")))
        = some 2 := by
  refine ⟨by decide, by decide, ?_⟩
  have h : withBacktraceFrom 2 (withBacktraceFrom 1 (Err.leaf 0 "disk full"))
      = Err.wb (Err.wb (Err.leaf 0 "disk full") (some 1)) (some 2) := by decide
  rw [h, backtrace_some]

/-- Claim C10: the mutual recursion between backtrace() and the find_bt
loop terminates on every finite acyclic chain: with fuel at least the
size of the value (one unit per cause step or delegation), the fueled
transcriptions of both complete and agree with the total functions. -/
theorem backtrace_terminates (e : Err) (n : Nat) (h : size e ≤ n) :
    backtraceFuel n e = some (backtrace e)
    ∧ find_btFuel n e = some (find_bt e) :=
  ⟨backtraceFuel_spec n h, find_btFuel_spec n h⟩

/-- Claim C10, witness: the termination theorem applied at a concrete
two-capture chain with fuel 4. -/
theorem backtrace_terminates_witness :
    size (Err.wb (Err.context "m" (Err.wb (Err.leaf 0 "x") (some 5))) none) ≤ 4
    ∧ (backtraceFuel 4 (Err.wb (Err.context "m" (Err.wb (Err.leaf 0 "x") (some 5))) none)
        = some (backtrace (Err.wb (Err.context "m" (Err.wb (Err.leaf 0 "x") (some 5))) none))
      ∧ find_btFuel 4 (Err.wb (Err.context "m" (Err.wb (Err.leaf 0 "x") (some 5))) none)
        = some (find_bt (Err.wb (Err.context "m" (Err.wb (Err.leaf 0 "x") (some 5))) none))) :=
  ⟨by decide,
   backtrace_terminates (Err.wb (Err.context "m" (Err.wb (Err.leaf 0 "x") (some 5))) none)
     4 (by decide)⟩

end Errutil
